import Mathlib

/-!
# nodeswitch: the ring of pre-warmed workers

A shallow embedding of `main.go`.  One run of the program is a function
`main : List String → Env → World → Result`:

* `World` is what survives between runs: whether the ring directory exists,
  what `state.json` holds, and the chronological trace of the effects the
  program has had on the outside (fifos made, workers started, interrupts
  requested, bytes written to a fifo).
* `Env` answers, for one run, every call that can fail for a reason outside
  the program (`os.Stat`, `os.Mkdir`, `cmd.Start`, `ioutil.ReadFile`, ...).
* `Result` is the world after the run, how the run ended (normal return,
  `log.Fatal`, or a Go runtime panic) and the value of the local variable
  `state` at that moment.

Go's `int` is modelled by `Int`.  The only arithmetic in the program is
`(state.CurrNode + 1) % len(state.Nodes)`, which runs after the bounds-checked
read `state.Nodes[state.CurrNode]`, so `CurrNode + 1 ≤ len(Nodes)` and the
addition cannot overflow; `%` is Go's truncated remainder, `Int.tmod`.
Waiting (a write to a fifo blocks until a reader opens it) is outside the
model: `ioutil.WriteFile` either fails or delivers its bytes.
-/

namespace Nodeswitch

/-! ## Data model -/

/-- Ring size, `const numFifos = 5`. -/
def numFifos : Nat := 5

/-- The teardown command, `const doneCmd = "done"`. -/
def doneCmd : String := "done"

/-- Contents of a file, `[]byte`. -/
abbrev Bytes := List UInt8

/-- The persisted record, `type State struct`. -/
structure State where
  Running : Bool
  CurrNode : Int
  Nodes : List Int
deriving DecidableEq, Repr

/-- Which call made the run stop with `log.Fatal` (or returned an error). -/
inductive Err
  | usage
  | stat
  | mkdir
  | fifoRemove
  | mkfifo
  | start
  | stateRead
  | stateDecode
  | alreadyRunning
  | removeAll
  | stateRemove
  | stateCreate
  | stateWrite
  | appRead
  | fifoWrite
deriving DecidableEq, Repr

/-- How one run of the program ends. -/
inductive Outcome
  | ok
  | fatal (e : Err)
  | panicked
deriving DecidableEq, Repr

/-- Result of a call that returns a value, returns an error, or panics. -/
inductive Step (α : Type)
  | done (a : α)
  | fail (e : Err)
  | panic
deriving DecidableEq, Repr

/-- An effect of the program on the outside world. -/
inductive Effect
  | mkfifo (fid : Int)
  | spawn (fid : Int) (pid : Int)
  | interrupt (pid : Int)
  | deliver (fid : Int) (bytes : Bytes)
deriving DecidableEq, Repr

/-- What is at the path `stateJson`. -/
inductive StateFile
  | absent
  | garbled
  | holds (s : State)
deriving DecidableEq, Repr

/-- What survives between two runs of the program. -/
structure World where
  dirExists : Bool
  stateFile : StateFile
  trace : List Effect
deriving DecidableEq, Repr

/-- Where `State.Write` fails, if it does. -/
inductive WriteFault
  | none
  | removeFails
  | createFails
  | writeFails
deriving DecidableEq, Repr

/-- Answers of the operating system during one run. -/
structure Env where
  /-- Does `os.Stat(fifoDir)` fail with an error other than not-exist. -/
  statFails : Bool
  /-- Does `os.Mkdir(fifoDir)` fail. -/
  mkdirFails : Bool
  /-- Does `os.Remove` of the fifo fail with an error other than not-exist. -/
  fifoRemoveFails : Int → Bool
  /-- Does `syscall.Mkfifo` fail. -/
  mkfifoFails : Int → Bool
  /-- Result of `cmd.Start()` for the worker of a slot: its pid, or failure. -/
  start : Int → Option Int
  /-- Does `os.FindProcess(pid)` return a process. -/
  findProcess : Int → Bool
  /-- Does `ioutil.ReadFile(stateJson)` fail although the file is there. -/
  readStateFails : Bool
  /-- Result of `ioutil.ReadFile(path)` on a code-source file. -/
  readFile : String → Option Bytes
  /-- Does `ioutil.WriteFile` to the fifo of a slot fail. -/
  fifoWriteFails : Int → Bool
  /-- Fault of the first `state.Write` of the run. -/
  write1 : WriteFault
  /-- Fault of the second `state.Write` of the run. -/
  write2 : WriteFault
  /-- Does `os.RemoveAll(fifoDir)` fail. -/
  removeAllFails : Bool

/-- The world after a run, how the run ended, and the local `state`. -/
structure Result where
  world : World
  outcome : Outcome
  mem : Option State
deriving DecidableEq, Repr

/-! ## Operations -/

/-- Append one effect to the trace. -/
def World.emit (w : World) (e : Effect) : World :=
  { w with trace := w.trace ++ [e] }

/-- Go's `s[i]` on a slice of ints: `none` is the index-out-of-range panic. -/
def index (s : List Int) (i : Int) : Option Int :=
  if 0 ≤ i ∧ i < (s.length : Int) then s[i.toNat]? else none

/-- The function `exists(path)` of the source at `fifoDir` (`exists` is a
reserved word here, hence the name). -/
def pathExists (env : Env) (w : World) : Bool × Option Err :=
  if env.statFails then (false, some Err.stat)
  else if w.dirExists then (true, none)
  else (false, none)

/-- The call `os.Mkdir(fifoDir, 0755)`. -/
def Mkdir (env : Env) (w : World) : World × Option Err :=
  if env.mkdirFails || w.dirExists then (w, some Err.mkdir)
  else ({ w with dirExists := true }, none)

/-- The function `MakeFifo(fid)`. -/
def MakeFifo (env : Env) (fid : Int) (w : World) : World × Option Err :=
  if env.fifoRemoveFails fid then (w, some Err.fifoRemove)
  else if env.mkfifoFails fid then (w, some Err.mkfifo)
  else (w.emit (Effect.mkfifo fid), none)

/-- The method `State.StartProcess(fid)`. -/
def State.StartProcess (this : State) (env : Env) (fid : Int) (w : World) :
    World × Step State :=
  match env.start fid with
  | none => (w, Step.fail Err.start)
  | some pid =>
    let w1 := w.emit (Effect.spawn fid pid)
    if 0 ≤ fid ∧ fid < (this.Nodes.length : Int) then
      (w1, Step.done { this with Nodes := this.Nodes.set fid.toNat pid })
    else (w1, Step.panic)

/-- The method `State.StartApp(path)`. -/
def State.StartApp (this : State) (env : Env) (path : String) (w : World) :
    World × Option Err :=
  match env.readFile path with
  | none => (w, some Err.appRead)
  | some appBytes =>
    if env.fifoWriteFails this.CurrNode then (w, some Err.fifoWrite)
    else (w.emit (Effect.deliver this.CurrNode appBytes), none)

/-- The function `readState(stateJson)`. -/
def readState (env : Env) (w : World) : Except Err State :=
  if env.readStateFails then Except.error Err.stateRead
  else
    match w.stateFile with
    | StateFile.absent => Except.error Err.stateRead
    | StateFile.garbled => Except.error Err.stateDecode
    | StateFile.holds s => Except.ok s

/-- The method `State.Write(stateJson)`. -/
def State.Write (this : State) (fault : WriteFault) (w : World) : World × Option Err :=
  match fault with
  | WriteFault.removeFails => (w, some Err.stateRemove)
  | WriteFault.createFails => ({ w with stateFile := StateFile.absent }, some Err.stateCreate)
  | WriteFault.writeFails => ({ w with stateFile := StateFile.garbled }, some Err.stateWrite)
  | WriteFault.none => ({ w with stateFile := StateFile.holds this }, none)

/-- The loop of `cleanup`: interrupt every recorded process that is found. -/
def cleanupLoop (env : Env) : List Int → World → World
  | [], w => w
  | pid :: rest, w =>
    if env.findProcess pid then cleanupLoop env rest (w.emit (Effect.interrupt pid))
    else cleanupLoop env rest w

/-- The function `cleanup(state)`. -/
def cleanup (env : Env) (state : State) (w : World) : World × Option Err :=
  let w1 := cleanupLoop env state.Nodes w
  if env.removeAllFails then (w1, some Err.removeAll)
  else ({ w1 with dirExists := false, stateFile := StateFile.absent }, none)

/-- The loop `for i := range state.Nodes` of `initNodes` over the indices
still to visit, for a ring of `n` slots. -/
def initLoop (env : Env) (n : Nat) : List Nat → World → State → World × Step State
  | [], w, state => (w, Step.done state)
  | i :: rest, w, state =>
    match MakeFifo env i w with
    | (w1, some e) => (w1, Step.fail e)
    | (w1, none) =>
      if i + 1 = n then initLoop env n rest w1 state
      else
        match state.StartProcess env i w1 with
        | (w2, Step.done state2) => initLoop env n rest w2 state2
        | (w2, Step.fail e) => (w2, Step.fail e)
        | (w2, Step.panic) => (w2, Step.panic)

/-- The function `initNodes` with the ring size as a parameter. -/
def initNodesN (n : Nat) (env : Env) (w : World) : World × Step State :=
  initLoop env n (List.range n) w
    { Running := false, CurrNode := (n : Int) - 1, Nodes := List.replicate n 0 }

/-- The function `initNodes()`: the ring has `numFifos` slots. -/
def initNodes (env : Env) (w : World) : World × Step State :=
  initNodesN numFifos env w

/-- Lines 81-89 of `main`: advance the pointer, deliver the code, unlock. -/
def mainDeliver (cmd : String) (env : Env) (w : World) (state : State) : Result :=
  if state.Nodes.length = 0 then ⟨w, Outcome.panicked, some state⟩
  else
    let st3 : State :=
      { state with CurrNode := (state.CurrNode + 1).tmod (state.Nodes.length : Int) }
    match st3.StartApp env cmd w with
    | (w4, some e) => ⟨w4, Outcome.fatal e, some st3⟩
    | (w4, none) =>
      let st4 : State := { st3 with Running := false }
      match st4.Write env.write2 w4 with
      | (w5, some e) => ⟨w5, Outcome.fatal e, some st4⟩
      | (w5, none) => ⟨w5, Outcome.ok, some st4⟩

/-- Lines 58-79 of `main`, the part after `state` has been obtained: teardown,
or lock, interrupt the process of the current slot and start its
replacement, whose error result is dropped. -/
def mainTail (cmd : String) (env : Env) (w : World) (state : State) : Result :=
  if cmd = doneCmd then
    match cleanup env state w with
    | (w1, some e) => ⟨w1, Outcome.fatal e, some state⟩
    | (w1, none) => ⟨w1, Outcome.ok, some state⟩
  else
    let st1 : State := { state with Running := true }
    match st1.Write env.write1 w with
    | (w1, some e) => ⟨w1, Outcome.fatal e, some st1⟩
    | (w1, none) =>
      match index st1.Nodes st1.CurrNode with
      | none => ⟨w1, Outcome.panicked, some st1⟩
      | some pid =>
        let w2 := if env.findProcess pid then w1.emit (Effect.interrupt pid) else w1
        match st1.StartProcess env st1.CurrNode w2 with
        | (w3, Step.done st2) => mainDeliver cmd env w3 st2
        | (w3, Step.fail _) => mainDeliver cmd env w3 st1
        | (w3, Step.panic) => ⟨w3, Outcome.panicked, some st1⟩

/-- The function `main`, with `args` the whole of `os.Args`. -/
def main (args : List String) (env : Env) (w : World) : Result :=
  match args with
  | [] => ⟨w, Outcome.fatal Err.usage, none⟩
  | [_] => ⟨w, Outcome.fatal Err.usage, none⟩
  | _ :: cmd :: _ =>
    match pathExists env w with
    | (false, some e) => ⟨w, Outcome.fatal e, none⟩
    | (false, none) =>
      if cmd = doneCmd then ⟨w, Outcome.ok, none⟩
      else
        match Mkdir env w with
        | (w1, some e) => ⟨w1, Outcome.fatal e, none⟩
        | (w1, none) =>
          match initNodes env w1 with
          | (w2, Step.done state) => mainTail cmd env w2 state
          | (w2, Step.fail e) => ⟨w2, Outcome.fatal e, none⟩
          | (w2, Step.panic) => ⟨w2, Outcome.panicked, none⟩
    | (true, _) =>
      match readState env w with
      | Except.error e => ⟨w, Outcome.fatal e, none⟩
      | Except.ok state =>
        if state.Running then ⟨w, Outcome.fatal Err.alreadyRunning, some state⟩
        else mainTail cmd env w state

/-! ## Vocabulary of the statements -/

/-- The ring directory exists and `state.json` loads as `s`: `exists(fifoDir)`
returns `(true, nil)` and `readState(stateJson)` returns `s`. -/
def Loads (env : Env) (w : World) (s : State) : Prop :=
  pathExists env w = (true, none) ∧ readState env w = Except.ok s

/-- The interrupt a run requests for `pid`: one, when the process is found. -/
def interruptOf (env : Env) (pid : Int) : List Effect :=
  if env.findProcess pid then [Effect.interrupt pid] else []

/-- The worker a run starts at slot `fid`: one, when `cmd.Start()` succeeds. -/
def spawnOf (env : Env) (fid : Int) : List Effect :=
  match env.start fid with
  | some pid => [Effect.spawn fid pid]
  | none => []

/-- The slice `Nodes` after `StartProcess(CurrNode)` whose error is dropped. -/
def nodesAfter (env : Env) (s : State) : List Int :=
  match env.start s.CurrNode with
  | some pid => s.Nodes.set s.CurrNode.toNat pid
  | none => s.Nodes

/-! ## Sequences of runs -/

/-- The world after a sequence of runs, each with its arguments and its
environment. -/
def runs : List (List String × Env) → World → World
  | [], w => w
  | (args, env) :: rest, w => runs rest (main args env w).world

/-- Every run of the sequence is a successful handoff: the ring directory
exists when it starts, its command is not the teardown command, and it
returns normally. -/
def Handoffs : List (List String × Env) → World → Prop
  | [], _ => True
  | (args, env) :: rest, w =>
    w.dirExists = true ∧ (∃ a cmd tl, args = a :: cmd :: tl ∧ cmd ≠ doneCmd) ∧
      (main args env w).outcome = Outcome.ok ∧ Handoffs rest (main args env w).world

/-! ## The shape of the ring -/

/-- A state has the shape of the ring: `numFifos` slots and a pointer that
indexes one of them. -/
def Shaped (s : State) : Prop :=
  s.Nodes.length = numFifos ∧ 0 ≤ s.CurrNode ∧ s.CurrNode < (numFifos : Int)

/-- Whatever state `state.json` holds has the shape of the ring. -/
def World.Shaped (w : World) : Prop :=
  ∀ s, w.stateFile = StateFile.holds s → Nodeswitch.Shaped s

/-- A world the program can have produced: the result of some sequence of
runs (any arguments, any environments) from a world without ring directory. -/
def Reachable (w : World) : Prop :=
  ∃ (tr : List Effect) (invs : List (List String × Env)),
    w = runs invs ⟨false, StateFile.absent, tr⟩

/-! ## Concrete runs -/

/-- A code-source file of the examples. -/
def app2 : Bytes := [0x61, 0x70, 0x70, 0x32]

/-- An environment in which every call succeeds: the worker started for slot
`i` gets pid `200 + i`, and every code-source file holds `app2`. -/
def envOk : Env :=
  { statFails := false, mkdirFails := false, fifoRemoveFails := fun _ => false,
    mkfifoFails := fun _ => false, start := fun i => some (200 + i),
    findProcess := fun _ => true, readStateFails := false,
    readFile := fun _ => some app2, fifoWriteFails := fun _ => false,
    write1 := WriteFault.none, write2 := WriteFault.none, removeAllFails := false }

/-- As `envOk`, but `cmd.Start()` fails (say `node` is not on the `PATH`). -/
def envNoStart : Env := { envOk with start := fun _ => none }

/-- As `envOk`, but the code-source file cannot be read. -/
def envNoApp : Env := { envOk with readFile := fun _ => none }

/-- A ring of five workers, unlocked, pointer 0. -/
def ring5 : World :=
  ⟨true, StateFile.holds ⟨false, 0, [100, 101, 102, 103, 104]⟩, []⟩

/-- No ring directory yet: the world before the first run. -/
def noRing : World := ⟨false, StateFile.absent, []⟩

/-- The same ring with the lock left set. -/
def ring5Locked : World :=
  ⟨true, StateFile.holds ⟨true, 0, [100, 101, 102, 103, 104]⟩, []⟩

/-! ## Lemmas on one run -/

theorem loads_iff (env : Env) (w : World) (s : State) :
    Loads env w s ↔
      env.statFails = false ∧ w.dirExists = true ∧ env.readStateFails = false ∧
        w.stateFile = StateFile.holds s := by
  unfold Loads pathExists readState
  cases h1 : env.statFails <;> cases h2 : w.dirExists <;> cases h3 : env.readStateFails <;>
    cases h4 : w.stateFile <;> simp

theorem main_of_loads {env : Env} {w : World} {s : State} (hl : Loads env w s)
    (a cmd : String) (tl : List String) :
    main (a :: cmd :: tl) env w =
      if s.Running then ⟨w, Outcome.fatal Err.alreadyRunning, some s⟩
      else mainTail cmd env w s := by
  obtain ⟨h1, h2⟩ := hl
  simp only [main, h1, h2]

theorem index_eq_some {l : List Int} {i pid : Int} (h : index l i = some pid) :
    0 ≤ i ∧ i < (l.length : Int) := by
  unfold index at h
  by_cases hb : 0 ≤ i ∧ i < (l.length : Int)
  · exact hb
  · simp [hb] at h

theorem next_tmod {i n : Int} (h0 : 0 ≤ i) (hn : i < n) :
    (i + 1).tmod n = (i + 1) % n :=
  Int.tmod_eq_emod (by omega) (by omega)

theorem mainDeliver_ok {cmd : String} {env : Env} {w : World} {s : State}
    (hok : (mainDeliver cmd env w s).outcome = Outcome.ok) :
    ∃ bytes, env.readFile cmd = some bytes ∧
      mainDeliver cmd env w s =
        ⟨⟨w.dirExists,
            StateFile.holds ⟨false, (s.CurrNode + 1).tmod (s.Nodes.length : Int), s.Nodes⟩,
            w.trace ++ [Effect.deliver ((s.CurrNode + 1).tmod (s.Nodes.length : Int)) bytes]⟩,
          Outcome.ok,
          some ⟨false, (s.CurrNode + 1).tmod (s.Nodes.length : Int), s.Nodes⟩⟩ := by
  unfold mainDeliver at hok ⊢
  by_cases hlen : s.Nodes.length = 0
  · simp [hlen] at hok
  · cases hr : env.readFile cmd with
    | none => simp [hlen, State.StartApp, hr] at hok
    | some bytes =>
      cases hf : env.fifoWriteFails ((s.CurrNode + 1).tmod (s.Nodes.length : Int)) with
      | true => simp [hlen, State.StartApp, hr, hf] at hok
      | false =>
        cases hw2 : env.write2 <;>
          simp [hlen, State.StartApp, hr, hf, State.Write, hw2, World.emit] at hok ⊢

theorem mainTail_ok {cmd : String} {env : Env} {w : World} {s : State}
    (hc : cmd ≠ doneCmd) (hok : (mainTail cmd env w s).outcome = Outcome.ok) :
    ∃ pid bytes, index s.Nodes s.CurrNode = some pid ∧ env.readFile cmd = some bytes ∧
      mainTail cmd env w s =
        ⟨⟨w.dirExists,
            StateFile.holds
              ⟨false, (s.CurrNode + 1) % (s.Nodes.length : Int), nodesAfter env s⟩,
            w.trace ++ interruptOf env pid ++ spawnOf env s.CurrNode ++
              [Effect.deliver ((s.CurrNode + 1) % (s.Nodes.length : Int)) bytes]⟩,
          Outcome.ok,
          some ⟨false, (s.CurrNode + 1) % (s.Nodes.length : Int), nodesAfter env s⟩⟩ := by
  unfold mainTail at hok ⊢
  simp only [hc, if_false] at hok ⊢
  cases hw1 : env.write1 <;> simp only [State.Write, hw1] at hok ⊢ <;>
    try (exact absurd hok (by simp))
  cases hi : index s.Nodes s.CurrNode with
  | none => simp [hi] at hok
  | some pid =>
    obtain ⟨h0, hlt⟩ := index_eq_some hi
    have hnt := next_tmod h0 hlt
    simp only [hi] at hok
    cases hfp : env.findProcess pid <;> cases hst : env.start s.CurrNode <;>
      simp only [State.StartProcess, hst, hfp, h0, hlt, and_self, if_true, if_false,
        Bool.false_eq_true] at hok ⊢ <;>
      obtain ⟨bytes, hr, heq⟩ := mainDeliver_ok hok <;>
      refine ⟨pid, bytes, rfl, hr, ?_⟩ <;>
      rw [heq] <;>
      simp [hnt, nodesAfter, hst, interruptOf, spawnOf, hfp, World.emit]

theorem handoff_ok {a cmd : String} {tl : List String} {env : Env} {w : World}
    (hd : w.dirExists = true) (hc : cmd ≠ doneCmd)
    (hok : (main (a :: cmd :: tl) env w).outcome = Outcome.ok) :
    ∃ s pid bytes, Loads env w s ∧ s.Running = false ∧
      index s.Nodes s.CurrNode = some pid ∧ env.readFile cmd = some bytes ∧
      main (a :: cmd :: tl) env w =
        ⟨⟨true,
            StateFile.holds
              ⟨false, (s.CurrNode + 1) % (s.Nodes.length : Int), nodesAfter env s⟩,
            w.trace ++ interruptOf env pid ++ spawnOf env s.CurrNode ++
              [Effect.deliver ((s.CurrNode + 1) % (s.Nodes.length : Int)) bytes]⟩,
          Outcome.ok,
          some ⟨false, (s.CurrNode + 1) % (s.Nodes.length : Int), nodesAfter env s⟩⟩ := by
  cases hsf : env.statFails with
  | true => simp [main, pathExists, hsf] at hok
  | false =>
    cases hrf : env.readStateFails with
    | true => simp [main, pathExists, hsf, hd, readState, hrf] at hok
    | false =>
      cases hfile : w.stateFile with
      | absent => simp [main, pathExists, hsf, hd, readState, hrf, hfile] at hok
      | garbled => simp [main, pathExists, hsf, hd, readState, hrf, hfile] at hok
      | holds s =>
        have hl : Loads env w s := (loads_iff env w s).2 ⟨hsf, hd, hrf, hfile⟩
        rw [main_of_loads hl] at hok ⊢
        cases hrun : s.Running with
        | true => simp [hrun] at hok
        | false =>
          simp only [hrun, Bool.false_eq_true, if_false] at hok ⊢
          obtain ⟨pid, bytes, hi, hr, heq⟩ := mainTail_ok hc hok
          exact ⟨s, pid, bytes, hl, hrun, hi, hr, by rw [heq, hd]⟩

theorem cleanupLoop_eq (env : Env) (l : List Int) (w : World) :
    cleanupLoop env l w =
      { w with trace := w.trace ++ (l.filter env.findProcess).map Effect.interrupt } := by
  induction l generalizing w with
  | nil => simp [cleanupLoop]
  | cons pid rest ih =>
    cases hfp : env.findProcess pid <;> simp [cleanupLoop, hfp, ih, World.emit]

theorem next_ne_self {p N : Int} (h0 : 0 ≤ p) (hlt : p < N) (h2 : 2 ≤ N) :
    (p + 1) % N ≠ p := by
  by_cases h : p + 1 < N
  · rw [Int.emod_eq_of_lt (by omega) h]; omega
  · have : p + 1 = N := by omega
    rw [this, Int.emod_self]; omega

theorem nodesAfter_length (env : Env) (s : State) :
    (nodesAfter env s).length = s.Nodes.length := by
  unfold nodesAfter
  cases env.start s.CurrNode <;> simp

theorem two_handoffs {a1 cmd1 a2 cmd2 : String} {tl1 tl2 : List String} {env1 env2 : Env}
    {w : World} {s : State} (hd : w.dirExists = true) (hs : w.stateFile = StateFile.holds s)
    (hc1 : cmd1 ≠ doneCmd) (hc2 : cmd2 ≠ doneCmd)
    (hok1 : (main (a1 :: cmd1 :: tl1) env1 w).outcome = Outcome.ok)
    (hok2 : (main (a2 :: cmd2 :: tl2) env2 (main (a1 :: cmd1 :: tl1) env1 w).world).outcome
      = Outcome.ok) :
    ∃ pid1 b1 pid2 b2,
      index s.Nodes s.CurrNode = some pid1 ∧
      index (nodesAfter env1 s) ((s.CurrNode + 1) % (s.Nodes.length : Int)) = some pid2 ∧
      env1.readFile cmd1 = some b1 ∧ env2.readFile cmd2 = some b2 ∧
      (main (a1 :: cmd1 :: tl1) env1 w).world =
        ⟨true,
          StateFile.holds
            ⟨false, (s.CurrNode + 1) % (s.Nodes.length : Int), nodesAfter env1 s⟩,
          w.trace ++ interruptOf env1 pid1 ++ spawnOf env1 s.CurrNode ++
            [Effect.deliver ((s.CurrNode + 1) % (s.Nodes.length : Int)) b1]⟩ ∧
      (main (a2 :: cmd2 :: tl2) env2 (main (a1 :: cmd1 :: tl1) env1 w).world).world.trace =
        (main (a1 :: cmd1 :: tl1) env1 w).world.trace ++ interruptOf env2 pid2 ++
          spawnOf env2 ((s.CurrNode + 1) % (s.Nodes.length : Int)) ++
          [Effect.deliver ((s.CurrNode + 2) % (s.Nodes.length : Int)) b2] := by
  obtain ⟨s', pid1, b1, hl, _, hi1, hr1, heq1⟩ := handoff_ok hd hc1 hok1
  have hfile := ((loads_iff env1 w s').1 hl).2.2.2
  rw [hs] at hfile
  cases hfile
  have hw1 := congrArg Result.world heq1
  simp only at hw1
  rw [hw1] at hok2 ⊢
  obtain ⟨s2, pid2, b2, hl2, _, hi2, hr2, heq2⟩ := handoff_ok rfl hc2 hok2
  have hfile2 := ((loads_iff env2 _ s2).1 hl2).2.2.2
  simp only at hfile2
  cases hfile2
  simp only [nodesAfter_length] at heq2
  refine ⟨pid1, b1, pid2, b2, hi1, hi2, hr1, hr2, rfl, ?_⟩
  rw [heq2]
  have h2 : ((s.CurrNode + 1) % (s.Nodes.length : Int) + 1) % (s.Nodes.length : Int)
      = (s.CurrNode + 2) % (s.Nodes.length : Int) := by
    rw [Int.emod_add_emod]; congr 1; omega
  simp [h2]

theorem handoffs_rotate (invs : List (List String × Env)) :
    ∀ (w : World) (s0 : State), w.dirExists = true → w.stateFile = StateFile.holds s0 →
      s0.Running = false → 0 ≤ s0.CurrNode → s0.CurrNode < (s0.Nodes.length : Int) →
      Handoffs invs w →
      ∃ sK, (runs invs w).stateFile = StateFile.holds sK ∧
        sK.CurrNode = (s0.CurrNode + (invs.length : Int)) % (s0.Nodes.length : Int) ∧
        sK.Running = false ∧ sK.Nodes.length = s0.Nodes.length ∧
        (runs invs w).dirExists = true := by
  induction invs with
  | nil =>
    intro w s0 hd hs hu h0 hlt _
    exact ⟨s0, hs, by simp [Int.emod_eq_of_lt h0 hlt], hu, rfl, hd⟩
  | cons inv rest ih =>
    intro w s0 hd hs hu h0 hlt hh
    obtain ⟨args, env⟩ := inv
    obtain ⟨_, ⟨a, cmd, tl, hargs, hc⟩, hok, hrest⟩ := hh
    subst hargs
    obtain ⟨s, pid, bytes, hl, _, hi, _, heq⟩ := handoff_ok hd hc hok
    have hfile := ((loads_iff env w s).1 hl).2.2.2
    rw [hs] at hfile
    cases hfile
    have hpos : (0 : Int) < (s0.Nodes.length : Int) := by omega
    have hw := congrArg Result.world heq
    simp only at hw
    rw [hw] at hrest
    obtain ⟨sK, hsK, hptr, hrun, hlen, hdir⟩ :=
      ih _ ⟨false, (s0.CurrNode + 1) % (s0.Nodes.length : Int), nodesAfter env s0⟩ rfl rfl rfl
        (Int.emod_nonneg _ (by omega))
        (by simp only [nodesAfter_length]; exact Int.emod_lt_of_pos _ hpos) hrest
    simp only [runs, hw]
    refine ⟨sK, hsK, ?_, hrun, by rw [hlen, nodesAfter_length], hdir⟩
    rw [hptr]
    simp only [nodesAfter_length, List.length_cons, Int.emod_add_emod]
    congr 1
    push_cast
    omega

/-! ## Lemmas on `initNodes` -/

theorem initLoop_spec (env : Env) (n : Nat) (l : List Nat) :
    ∀ (w : World) (st : State), st.Nodes.length = n →
      (∀ i ∈ l, i < n ∧ env.fifoRemoveFails i = false ∧ env.mkfifoFails i = false) →
      (∀ i ∈ l, i + 1 < n → ∃ pid, env.start i = some pid) →
      ∃ nodes,
        initLoop env n l w st =
          (⟨w.dirExists, w.stateFile,
              w.trace ++ l.flatMap (fun i =>
                Effect.mkfifo i :: (if i + 1 = n then [] else spawnOf env i))⟩,
            Step.done ⟨st.Running, st.CurrNode, nodes⟩) ∧
        nodes.length = n ∧
        ∀ j : Nat, nodes[j]? = if j ∈ l ∧ j + 1 < n then env.start j else st.Nodes[j]? := by
  induction l with
  | nil =>
    intro w st hlen _ _
    exact ⟨st.Nodes, by simp [initLoop], hlen, by simp⟩
  | cons i rest ih =>
    intro w st hlen hfifo hstart
    obtain ⟨hin, hrm, hmk⟩ := hfifo i (List.mem_cons_self _ _)
    have hfifo' : ∀ k ∈ rest, k < n ∧ env.fifoRemoveFails k = false ∧ env.mkfifoFails k = false :=
      fun k hk => hfifo k (List.mem_cons_of_mem _ hk)
    have hstart' : ∀ k ∈ rest, k + 1 < n → ∃ pid, env.start k = some pid :=
      fun k hk => hstart k (List.mem_cons_of_mem _ hk)
    by_cases hlast : i + 1 = n
    · obtain ⟨nodes, heq, hl, hget⟩ := ih (w.emit (Effect.mkfifo i)) st hlen hfifo' hstart'
      refine ⟨nodes, ?_, hl, ?_⟩
      · simp only [initLoop, MakeFifo, hrm, hmk, hlast, if_true, Bool.false_eq_true, if_false]
        rw [heq]
        simp [World.emit, hlast]
      · intro j
        rw [hget j]
        by_cases hj : j = i
        · subst hj
          have : ¬ (j + 1 < n) := by omega
          simp [this]
        · simp [hj]
    · obtain ⟨pid, hpid⟩ := hstart i (List.mem_cons_self _ _) (by omega)
      have hlt : (i : Int) < (st.Nodes.length : Int) := by rw [hlen]; exact_mod_cast hin
      obtain ⟨nodes, heq, hl, hget⟩ :=
        ih ((w.emit (Effect.mkfifo i)).emit (Effect.spawn i pid))
          ⟨st.Running, st.CurrNode, st.Nodes.set i pid⟩ (by simp [hlen]) hfifo' hstart'
      refine ⟨nodes, ?_, hl, ?_⟩
      · simp only [initLoop, MakeFifo, hrm, hmk, hlast, Bool.false_eq_true, if_false,
          State.StartProcess, hpid, hlt, Int.natCast_nonneg, and_self, if_true,
          Int.toNat_ofNat]
        rw [heq]
        simp [World.emit, hlast, spawnOf, hpid]
      · intro j
        rw [hget j]
        by_cases hj : j = i
        · subst hj
          have h1 : j + 1 < n := by omega
          by_cases hmem : j ∈ rest
          · simp [hmem, h1]
          · simp [hmem, h1, hpid, hlen, hin]
        · have hij : i ≠ j := fun h => hj h.symm
          simp [hj, List.getElem?_set_ne hij]

/-! ## Lemmas on the shape of the ring -/

theorem shaped_next {s : State} (h : Shaped s) (r : Bool) :
    Shaped ⟨r, (s.CurrNode + 1).tmod (s.Nodes.length : Int), s.Nodes⟩ := by
  obtain ⟨hlen, h0, hlt⟩ := h
  have hlt' : s.CurrNode < (s.Nodes.length : Int) := by rw [hlen]; exact hlt
  have hpos : (0 : Int) < (numFifos : Int) := by simp [numFifos]
  refine ⟨hlen, ?_, ?_⟩
  · show 0 ≤ (s.CurrNode + 1).tmod (s.Nodes.length : Int)
    rw [next_tmod h0 hlt']
    exact Int.emod_nonneg _ (by omega)
  · show (s.CurrNode + 1).tmod (s.Nodes.length : Int) < (numFifos : Int)
    rw [next_tmod h0 hlt', hlen]
    exact Int.emod_lt_of_pos _ hpos

theorem shaped_running {s : State} (h : Shaped s) (r : Bool) :
    Shaped ⟨r, s.CurrNode, s.Nodes⟩ := h

theorem shaped_set {s : State} (h : Shaped s) (r : Bool) (i : Nat) (pid : Int) :
    Shaped ⟨r, s.CurrNode, s.Nodes.set i pid⟩ :=
  ⟨by simpa using h.1, h.2⟩

theorem world_shaped_holds (d : Bool) (s : State) (t : List Effect) :
    World.Shaped ⟨d, StateFile.holds s, t⟩ ↔ Shaped s := by
  constructor
  · intro h; exact h s rfl
  · intro h s' hs'; cases hs'; exact h

theorem world_shaped_absent (d : Bool) (t : List Effect) :
    World.Shaped ⟨d, StateFile.absent, t⟩ := by
  intro s hs; cases hs

theorem world_shaped_garbled (d : Bool) (t : List Effect) :
    World.Shaped ⟨d, StateFile.garbled, t⟩ := by
  intro s hs; cases hs

theorem world_shaped_of_file {w w' : World} (h : w'.stateFile = w.stateFile)
    (hw : w.Shaped) : w'.Shaped := by
  intro s hs; exact hw s (h ▸ hs)

theorem mainDeliver_shape (cmd : String) (env : Env) (w : World) (s : State)
    (hs : Shaped s) (hw : w.Shaped) :
    (mainDeliver cmd env w s).world.Shaped ∧
      (mainDeliver cmd env w s).outcome ≠ Outcome.panicked ∧
      ∀ m, (mainDeliver cmd env w s).mem = some m → Shaped m := by
  have hlen : s.Nodes.length ≠ 0 := by rw [hs.1]; simp [numFifos]
  have hn1 := shaped_next hs true
  have hn2 := shaped_next hs false
  have hn3 := shaped_next hs s.Running
  have hwe : ∀ e, (w.emit e).Shaped := fun e => world_shaped_of_file rfl hw
  unfold mainDeliver
  cases hr : env.readFile cmd <;>
    cases hf : env.fifoWriteFails ((s.CurrNode + 1).tmod (s.Nodes.length : Int)) <;>
    cases hw2 : env.write2 <;>
    simp [hlen, State.StartApp, hr, hf, State.Write, hw2, hw, hn1, hn2, hn3, hwe,
      world_shaped_holds, world_shaped_absent, world_shaped_garbled]

theorem mainTail_shape (cmd : String) (env : Env) (w : World) (s : State)
    (hs : Shaped s) (hw : w.Shaped) :
    (mainTail cmd env w s).world.Shaped ∧
      (mainTail cmd env w s).outcome ≠ Outcome.panicked ∧
      ∀ m, (mainTail cmd env w s).mem = some m → Shaped m := by
  unfold mainTail
  by_cases hc : cmd = doneCmd
  · have hcl : (cleanupLoop env s.Nodes w).Shaped := by
      rw [cleanupLoop_eq]; exact world_shaped_of_file rfl hw
    cases hra : env.removeAllFails <;>
      simp [hc, cleanup, hra, hcl, hs, world_shaped_absent]
  · simp only [hc, if_false]
    have hlt : s.CurrNode < (s.Nodes.length : Int) := by rw [hs.1]; exact hs.2.2
    have h0 := hs.2.1
    have hs1 : Shaped ⟨true, s.CurrNode, s.Nodes⟩ := shaped_running hs true
    cases hw1 : env.write1 <;> simp only [State.Write, hw1]
    · have hpid : ∃ pid, index s.Nodes s.CurrNode = some pid := by
        have hn : s.CurrNode.toNat < s.Nodes.length := by omega
        exact ⟨s.Nodes[s.CurrNode.toNat], by simp [index, h0, hlt, hn]⟩
      obtain ⟨pid, hi⟩ := hpid
      have hwA : World.Shaped ⟨w.dirExists, StateFile.holds ⟨true, s.CurrNode, s.Nodes⟩,
          w.trace⟩ := (world_shaped_holds _ _ _).2 hs1
      have hwB : ∀ (w1 : World), w1.Shaped →
          World.Shaped (if env.findProcess pid = true
            then w1.emit (Effect.interrupt pid) else w1) := by
        intro w1 h1
        split
        · exact world_shaped_of_file rfl h1
        · exact h1
      simp only [hi]
      cases hst : env.start s.CurrNode with
      | none =>
        simp only [State.StartProcess, hst]
        exact mainDeliver_shape cmd env _ _ hs1 (hwB _ hwA)
      | some npid =>
        simp only [State.StartProcess, hst, h0, hlt, and_self, if_true]
        exact mainDeliver_shape cmd env _ _ (shaped_set hs true _ _)
          (world_shaped_of_file rfl (hwB _ hwA))
    · exact ⟨hw, by simp, fun m hm => by cases hm; exact hs1⟩
    · exact ⟨world_shaped_absent _ _, by simp, fun m hm => by cases hm; exact hs1⟩
    · exact ⟨world_shaped_garbled _ _, by simp, fun m hm => by cases hm; exact hs1⟩

theorem initLoop_shape (env : Env) (n : Nat) (l : List Nat) :
    ∀ (w : World) (st : State), (∀ i ∈ l, i < st.Nodes.length) →
      (initLoop env n l w st).1.stateFile = w.stateFile ∧
        (initLoop env n l w st).2 ≠ Step.panic ∧
        ∀ st', (initLoop env n l w st).2 = Step.done st' →
          st'.Nodes.length = st.Nodes.length ∧ st'.CurrNode = st.CurrNode := by
  induction l with
  | nil =>
    intro w st _
    refine ⟨rfl, by simp [initLoop], ?_⟩
    intro st' h
    simp only [initLoop, Step.done.injEq] at h
    subst h
    exact ⟨rfl, rfl⟩
  | cons i rest ih =>
    intro w st hl
    have hin := hl i (List.mem_cons_self _ _)
    have hlt : (i : Int) < (st.Nodes.length : Int) := by exact_mod_cast hin
    cases hrm : env.fifoRemoveFails i with
    | true => simp [initLoop, MakeFifo, hrm]
    | false =>
      cases hmk : env.mkfifoFails i with
      | true => simp [initLoop, MakeFifo, hrm, hmk]
      | false =>
        by_cases hlast : i + 1 = n
        · simp only [initLoop, MakeFifo, hrm, hmk, hlast, if_true, Bool.false_eq_true,
            if_false]
          exact ih _ st (fun k hk => hl k (List.mem_cons_of_mem _ hk))
        · cases hst : env.start i with
          | none =>
            simp [initLoop, MakeFifo, hrm, hmk, hlast, State.StartProcess, hst, World.emit]
          | some pid =>
            simp only [initLoop, MakeFifo, hrm, hmk, hlast, Bool.false_eq_true, if_false,
              State.StartProcess, hst, hlt, Int.natCast_nonneg, and_self, if_true,
              Int.toNat_ofNat]
            obtain ⟨h1, h2, h3⟩ :=
              ih ((w.emit (Effect.mkfifo i)).emit (Effect.spawn i pid))
                ⟨st.Running, st.CurrNode, st.Nodes.set i pid⟩
                (fun k hk => by simpa using hl k (List.mem_cons_of_mem _ hk))
            refine ⟨h1, h2, fun st' h => ?_⟩
            simpa using h3 st' h

theorem main_shape (args : List String) (env : Env) (w : World) (hw : w.Shaped) :
    (main args env w).world.Shaped ∧ (main args env w).outcome ≠ Outcome.panicked ∧
      ∀ m, (main args env w).mem = some m → Shaped m := by
  match args with
  | [] => exact ⟨hw, by simp [main], by simp [main]⟩
  | [_] => exact ⟨hw, by simp [main], by simp [main]⟩
  | _ :: cmd :: _ =>
    unfold main
    cases hsf : env.statFails with
    | true => simp [pathExists, hsf, hw]
    | false =>
      cases hd : w.dirExists with
      | true =>
        simp only [pathExists, hsf, hd, Bool.false_eq_true, if_false, if_true]
        cases hrf : env.readStateFails with
        | true => simp [readState, hrf, hw]
        | false =>
          cases hfile : w.stateFile with
          | absent => simp [readState, hrf, hfile, hw]
          | garbled => simp [readState, hrf, hfile, hw]
          | holds s =>
            have hs := hw s hfile
            simp only [readState, hrf, hfile, Bool.false_eq_true, if_false]
            cases hrun : s.Running with
            | true => simp [hw, hs]
            | false =>
              simp only [Bool.false_eq_true, if_false]
              exact mainTail_shape cmd env w s hs hw
      | false =>
        simp only [pathExists, hsf, hd, Bool.false_eq_true, if_false]
        by_cases hc : cmd = doneCmd
        · simp [hc, hw]
        · simp only [hc, if_false]
          cases hmk : env.mkdirFails with
          | true => simp [Mkdir, hmk, hw]
          | false =>
            simp only [Mkdir, hmk, hd, Bool.or_self, Bool.false_eq_true, if_false]
            obtain ⟨h1, h2, h3⟩ :=
              initLoop_shape env numFifos (List.range numFifos)
                ⟨true, w.stateFile, w.trace⟩
                ⟨false, (numFifos : Int) - 1, List.replicate numFifos 0⟩
                (fun i hi => by simpa using List.mem_range.1 hi)
            have hw2 : (initNodes env ⟨true, w.stateFile, w.trace⟩).1.Shaped :=
              world_shaped_of_file h1 hw
            cases hinit : initNodes env ⟨true, w.stateFile, w.trace⟩ with
            | mk w2 r =>
              rw [hinit] at hw2
              cases r with
              | done st =>
                have hst := h3 st (by
                  show (initNodes env ⟨true, w.stateFile, w.trace⟩).2 = Step.done st
                  rw [hinit])
                simp only
                refine mainTail_shape cmd env w2 st ⟨by simpa using hst.1, ?_, ?_⟩ hw2
                · rw [hst.2]; simp [numFifos]
                · rw [hst.2]; simp [numFifos]
              | fail e => simp [hw2]
              | panic =>
                exfalso
                apply h2
                show (initNodes env ⟨true, w.stateFile, w.trace⟩).2 = Step.panic
                rw [hinit]

theorem runs_shape (invs : List (List String × Env)) :
    ∀ w : World, w.Shaped → (runs invs w).Shaped := by
  induction invs with
  | nil => intro w hw; exact hw
  | cons inv rest ih =>
    intro w hw
    obtain ⟨args, env⟩ := inv
    exact ih _ (main_shape args env w hw).1

theorem nodesAfter_getElem_ne (env : Env) (s : State) (j : Nat) (h0 : 0 ≤ s.CurrNode)
    (hj : (j : Int) ≠ s.CurrNode) : (nodesAfter env s)[j]? = s.Nodes[j]? := by
  unfold nodesAfter
  cases env.start s.CurrNode with
  | none => rfl
  | some pid =>
    have : s.CurrNode.toNat ≠ j := by omega
    simp [List.getElem?_set_ne this]

/-! ## The claims -/

/-- C1 (mutual exclusion): a run whose command is a code-source path, on an
existing ring directory whose state loads with `Running` true, ends in the
already-running error and leaves the world (persisted state, spawned and
interrupted processes, bytes of every fifo) exactly as it was. -/
theorem locked_handoff_rejected (a cmd : String) (tl : List String) (env : Env)
    (w : World) (s : State) (_hc : cmd ≠ doneCmd) (hl : Loads env w s)
    (hr : s.Running = true) :
    (main (a :: cmd :: tl) env w).outcome = Outcome.fatal Err.alreadyRunning ∧
      (main (a :: cmd :: tl) env w).world = w ∧
      (main (a :: cmd :: tl) env w).world.stateFile = StateFile.holds s ∧
      (main (a :: cmd :: tl) env w).world.trace = w.trace := by
  have hfile := ((loads_iff env w s).1 hl).2.2.2
  rw [main_of_loads hl]
  simp [hr, hfile]

/-- C1 at a concrete run: the ring of five with the lock set, command `app2.js`. -/
theorem locked_handoff_rejected_witness :
    "app2.js" ≠ doneCmd ∧ Loads envOk ring5Locked ⟨true, 0, [100, 101, 102, 103, 104]⟩ ∧
      (main ["nodeswitch", "app2.js"] envOk ring5Locked).outcome
        = Outcome.fatal Err.alreadyRunning ∧
      (main ["nodeswitch", "app2.js"] envOk ring5Locked).world = ring5Locked :=
  have h := locked_handoff_rejected "nodeswitch" "app2.js" [] envOk ring5Locked
    ⟨true, 0, [100, 101, 102, 103, 104]⟩ (by decide) ⟨rfl, rfl⟩ rfl
  ⟨by decide, ⟨rfl, rfl⟩, h.1, h.2.1⟩

/-- C3 (delivery target): a successful handoff on a ring of `N ≥ 2` slots
loaded with pointer `p` adds to the trace, after the interrupt and the spawn
at slot `p`, exactly one write: the whole code-source file, to the fifo of
slot `(p + 1) mod N`, which is not slot `p`. -/
theorem delivery_target (a cmd : String) (tl : List String) (env : Env) (w : World)
    (s : State) (N : Nat) (hd : w.dirExists = true) (hs : w.stateFile = StateFile.holds s)
    (hN : s.Nodes.length = N) (h2 : 2 ≤ N) (hc : cmd ≠ doneCmd)
    (hok : (main (a :: cmd :: tl) env w).outcome = Outcome.ok) :
    ∃ pid bytes fx, env.readFile cmd = some bytes ∧
      index s.Nodes s.CurrNode = some pid ∧
      (main (a :: cmd :: tl) env w).world.trace = w.trace ++ fx ∧
      fx = interruptOf env pid ++ spawnOf env s.CurrNode ++
        [Effect.deliver ((s.CurrNode + 1) % (N : Int)) bytes] ∧
      (∀ fid b, Effect.deliver fid b ∈ fx → fid = (s.CurrNode + 1) % (N : Int) ∧ b = bytes) ∧
      (∀ fid npid, Effect.spawn fid npid ∈ fx → fid = s.CurrNode) ∧
      (s.CurrNode + 1) % (N : Int) ≠ s.CurrNode := by
  obtain ⟨s', pid, bytes, hl, _, hi, hr, heq⟩ := handoff_ok hd hc hok
  have hfile := ((loads_iff env w s').1 hl).2.2.2
  rw [hs] at hfile
  cases hfile
  obtain ⟨h0, hlt⟩ := index_eq_some hi
  rw [hN] at hlt heq
  refine ⟨pid, bytes, _, hr, hi, ?_, rfl, ?_, ?_, next_ne_self h0 hlt (by exact_mod_cast h2)⟩
  · rw [heq]; simp
  · intro fid b hmem
    unfold interruptOf spawnOf at hmem
    cases hfp : env.findProcess pid <;> cases hst : env.start s.CurrNode <;>
      simp [hfp, hst] at hmem <;> exact hmem
  · intro fid npid hmem
    unfold interruptOf spawnOf at hmem
    cases hfp : env.findProcess pid <;> cases hst : env.start s.CurrNode <;>
      simp [hfp, hst] at hmem <;> exact hmem.1

/-- C3 at the run of the scenario: ring of five, pointer 0, command `app2.js`; the worker
is started at slot 0, the pointer becomes 1 and the file goes to the fifo of slot 1. -/
theorem delivery_target_witness :
    (main ["nodeswitch", "app2.js"] envOk ring5).outcome = Outcome.ok ∧
      (main ["nodeswitch", "app2.js"] envOk ring5).world =
        ⟨true, StateFile.holds ⟨false, 1, [200, 101, 102, 103, 104]⟩,
          [Effect.interrupt 100, Effect.spawn 0 200, Effect.deliver 1 app2]⟩ ∧
      ∃ pid bytes fx, envOk.readFile "app2.js" = some bytes ∧
        index [100, 101, 102, 103, 104] 0 = some pid ∧
        (main ["nodeswitch", "app2.js"] envOk ring5).world.trace = ring5.trace ++ fx ∧
        fx = interruptOf envOk pid ++ spawnOf envOk 0 ++
          [Effect.deliver ((0 + 1) % ((5 : Nat) : Int)) bytes] ∧
        (∀ fid b, Effect.deliver fid b ∈ fx → fid = (0 + 1) % ((5 : Nat) : Int) ∧ b = bytes) ∧
        (∀ fid npid, Effect.spawn fid npid ∈ fx → fid = 0) ∧
        (0 + 1) % ((5 : Nat) : Int) ≠ 0 :=
  ⟨by decide, by decide,
    delivery_target "nodeswitch" "app2.js" [] envOk ring5 ⟨false, 0, [100, 101, 102, 103, 104]⟩ 5
      rfl rfl rfl (by decide) (by decide) (by decide)⟩

/-- C7 (delivery failure leaves the ring locked): on an existing ring with an
unlocked loaded state `s`, a handoff that stops on the error of `StartApp`
(reading the code source, or writing it to the fifo) leaves `s` with `Running`
set as the persisted state, while the advanced pointer and the new pid are in
memory only; and `StartApp` is reached and fails whenever the first `Write`
succeeds, the pointer is in bounds and the read or the fifo write fails. -/
theorem delivery_failure_leaves_lock (a cmd : String) (tl : List String) (env : Env)
    (w : World) (s : State) (hl : Loads env w s) (hu : s.Running = false)
    (hc : cmd ≠ doneCmd) :
    (((main (a :: cmd :: tl) env w).outcome = Outcome.fatal Err.appRead ∨
        (main (a :: cmd :: tl) env w).outcome = Outcome.fatal Err.fifoWrite) →
      (main (a :: cmd :: tl) env w).world.stateFile
          = StateFile.holds ⟨true, s.CurrNode, s.Nodes⟩ ∧
        (main (a :: cmd :: tl) env w).mem
          = some ⟨true, (s.CurrNode + 1) % (s.Nodes.length : Int), nodesAfter env s⟩) ∧
    (env.write1 = WriteFault.none → 0 ≤ s.CurrNode → s.CurrNode < (s.Nodes.length : Int) →
      (env.readFile cmd = none ∨
        env.fifoWriteFails ((s.CurrNode + 1) % (s.Nodes.length : Int)) = true) →
      ((main (a :: cmd :: tl) env w).outcome = Outcome.fatal Err.appRead ∨
        (main (a :: cmd :: tl) env w).outcome = Outcome.fatal Err.fifoWrite)) := by
  rw [main_of_loads hl]
  simp only [hu, Bool.false_eq_true, if_false]
  unfold mainTail
  simp only [hc, if_false]
  cases hw1 : env.write1 <;> simp only [State.Write, hw1]
  · cases hi : index s.Nodes s.CurrNode with
    | none =>
      refine ⟨by simp, fun _ h0 hlt _ => ?_⟩
      simp [index, h0, hlt] at hi
    | some pid =>
      obtain ⟨h0, hlt⟩ := index_eq_some hi
      have hnt := next_tmod h0 hlt
      have hlen : s.Nodes.length ≠ 0 := by
        intro hz; rw [hz] at hlt; simp at hlt; omega
      cases hfp : env.findProcess pid <;> cases hst : env.start s.CurrNode <;>
        cases hrd : env.readFile cmd <;>
        cases hf : env.fifoWriteFails ((s.CurrNode + 1) % (s.Nodes.length : Int)) <;>
        cases hw2 : env.write2 <;>
        simp [State.StartProcess, hst, hfp, h0, hlt, mainDeliver, hlen, State.StartApp, hrd,
          hnt, hf, State.Write, hw2, World.emit, nodesAfter]
  all_goals simp

/-- C7 at a concrete run: the code-source file cannot be read. -/
theorem delivery_failure_leaves_lock_witness :
    Loads envNoApp ring5 ⟨false, 0, [100, 101, 102, 103, 104]⟩ ∧
      (main ["nodeswitch", "app2.js"] envNoApp ring5).outcome = Outcome.fatal Err.appRead ∧
      (main ["nodeswitch", "app2.js"] envNoApp ring5).world.stateFile
        = StateFile.holds ⟨true, 0, [100, 101, 102, 103, 104]⟩ ∧
      (main ["nodeswitch", "app2.js"] envNoApp ring5).mem
        = some ⟨true, 1, [200, 101, 102, 103, 104]⟩ :=
  have h := delivery_failure_leaves_lock "nodeswitch" "app2.js" [] envNoApp ring5
    ⟨false, 0, [100, 101, 102, 103, 104]⟩ ⟨rfl, rfl⟩ rfl (by decide)
  have hout := h.2 rfl (by decide) (by decide) (Or.inl rfl)
  ⟨⟨rfl, rfl⟩, by decide, (h.1 hout).1, (h.1 hout).2⟩

/-- C5, as stated, fails: with the lock set, the teardown command stops on the
already-running error although removing the directory would succeed; no stop
is requested and the ring directory stays. -/
theorem teardown_locked_counterexample :
    Loads envOk ring5Locked ⟨true, 0, [100, 101, 102, 103, 104]⟩ ∧
      envOk.removeAllFails = false ∧
      (main ["nodeswitch", doneCmd] envOk ring5Locked).outcome
        = Outcome.fatal Err.alreadyRunning ∧
      (main ["nodeswitch", doneCmd] envOk ring5Locked).outcome ≠ Outcome.ok ∧
      (main ["nodeswitch", doneCmd] envOk ring5Locked).world.dirExists = true ∧
      (main ["nodeswitch", doneCmd] envOk ring5Locked).world.trace = [] :=
  ⟨⟨rfl, rfl⟩, rfl, by decide, by decide, by decide, by decide⟩

/-- C5, amended (teardown honours the lock): on an existing ring directory
whose state loads as `s`, the teardown command, when `Running` is false,
requests an interrupt of every recorded pid whose process is found, in order,
then removes the ring directory, and succeeds exactly when the removal does;
when `Running` is true it stops on the already-running error and changes
nothing. -/
theorem teardown_honours_lock (a : String) (tl : List String) (env : Env) (w : World)
    (s : State) (hl : Loads env w s) :
    (s.Running = false →
      (main (a :: doneCmd :: tl) env w).world.trace
          = w.trace ++ (s.Nodes.filter env.findProcess).map Effect.interrupt ∧
        (env.removeAllFails = false →
          (main (a :: doneCmd :: tl) env w).outcome = Outcome.ok ∧
            (main (a :: doneCmd :: tl) env w).world.dirExists = false ∧
            (main (a :: doneCmd :: tl) env w).world.stateFile = StateFile.absent) ∧
        (env.removeAllFails = true →
          (main (a :: doneCmd :: tl) env w).outcome = Outcome.fatal Err.removeAll)) ∧
    (s.Running = true →
      (main (a :: doneCmd :: tl) env w).outcome = Outcome.fatal Err.alreadyRunning ∧
        (main (a :: doneCmd :: tl) env w).world = w) := by
  rw [main_of_loads hl]
  cases hrun : s.Running with
  | true => simp
  | false =>
    cases hra : env.removeAllFails <;>
      simp [mainTail, cleanup, cleanupLoop_eq, hra]

/-- C5, amended, at a concrete run: teardown of the unlocked ring of five. -/
theorem teardown_honours_lock_witness :
    Loads envOk ring5 ⟨false, 0, [100, 101, 102, 103, 104]⟩ ∧
      (main ["nodeswitch", doneCmd] envOk ring5).world.trace
        = [Effect.interrupt 100, Effect.interrupt 101, Effect.interrupt 102,
            Effect.interrupt 103, Effect.interrupt 104] ∧
      (main ["nodeswitch", doneCmd] envOk ring5).outcome = Outcome.ok ∧
      (main ["nodeswitch", doneCmd] envOk ring5).world.dirExists = false ∧
      (main ["nodeswitch", doneCmd] envOk ring5).world.stateFile = StateFile.absent :=
  have h := (teardown_honours_lock "nodeswitch" [] envOk ring5
    ⟨false, 0, [100, 101, 102, 103, 104]⟩ ⟨rfl, rfl⟩).1 rfl
  ⟨⟨rfl, rfl⟩, h.1, h.2.1 rfl⟩

/-- C6, at the failing input: `cmd.Start()` fails for the worker of slot 0,
and the run still returns normally, with the pointer advanced to 1, the code
written to the fifo of slot 1, no worker started, the stale pid 100 still
recorded at slot 0 and `Running` persisted as false. -/
theorem start_failure_ignored :
    envNoStart.start 0 = none ∧
      main ["nodeswitch", "app2.js"] envNoStart ring5 =
        ⟨⟨true, StateFile.holds ⟨false, 1, [100, 101, 102, 103, 104]⟩,
            [Effect.interrupt 100, Effect.deliver 1 app2]⟩,
          Outcome.ok, some ⟨false, 1, [100, 101, 102, 103, 104]⟩⟩ :=
  ⟨rfl, by decide⟩

/-- C2 (rotation): on a ring of `N ≥ 1` slots, `K` successful handoffs in a
row from an unlocked persisted state with pointer `p0` in `[0, N)` leave a
persisted state with `CurrNode = (p0 + K) mod N` and `Running = false` (each
successful handoff is the case `K = 1`: the pointer moves by `+1 mod N`). -/
theorem pointer_after_handoffs (N : Nat) (p0 : Int) (K : Nat) (w : World) (s0 : State)
    (invs : List (List String × Env)) (_hN : 1 ≤ N) (hp0 : 0 ≤ p0 ∧ p0 < (N : Int))
    (hd : w.dirExists = true) (hs : w.stateFile = StateFile.holds s0)
    (hlen : s0.Nodes.length = N) (hptr : s0.CurrNode = p0) (hu : s0.Running = false)
    (hK : invs.length = K) (hh : Handoffs invs w) :
    ∃ sK, (runs invs w).stateFile = StateFile.holds sK ∧
      sK.CurrNode = (p0 + (K : Int)) % (N : Int) ∧ sK.Running = false ∧
      sK.Nodes.length = N := by
  subst hlen hptr hK
  obtain ⟨sK, h1, h2, h3, h4, _⟩ := handoffs_rotate invs w s0 hd hs hu hp0.1 hp0.2 hh
  exact ⟨sK, h1, h2, h3, h4⟩

/-- C2 at a concrete sequence: two successful handoffs from pointer 0 on the ring of five. -/
theorem pointer_after_handoffs_witness :
    Handoffs [(["nodeswitch", "app1.js"], envOk), (["nodeswitch", "app2.js"], envOk)] ring5 ∧
      ∃ sK, (runs [(["nodeswitch", "app1.js"], envOk), (["nodeswitch", "app2.js"], envOk)]
          ring5).stateFile = StateFile.holds sK ∧
        sK.CurrNode = (0 + ((2 : Nat) : Int)) % ((5 : Nat) : Int) ∧ sK.Running = false ∧
        sK.Nodes.length = 5 :=
  have hh : Handoffs
      [(["nodeswitch", "app1.js"], envOk), (["nodeswitch", "app2.js"], envOk)] ring5 :=
    ⟨rfl, ⟨_, _, _, rfl, by decide⟩, by decide, rfl, ⟨_, _, _, rfl, by decide⟩, by decide,
      trivial⟩
  ⟨hh, pointer_after_handoffs 5 0 2 ring5 ⟨false, 0, [100, 101, 102, 103, 104]⟩ _ (by decide)
    (by decide) rfl rfl rfl rfl rfl rfl hh⟩

/-- C4, as stated, fails on the ring of five: the earlier of two consecutive
successful handoffs starts its worker at slot 0 (and writes to the fifo of
slot 1), the later one writes its code to the fifo of slot 2, not of slot 0. -/
theorem warm_spare_counterexample :
    (main ["nodeswitch", "app1.js"] envOk ring5).outcome = Outcome.ok ∧
      (main ["nodeswitch", "app1.js"] envOk ring5).world.trace
        = [Effect.interrupt 100, Effect.spawn 0 200, Effect.deliver 1 app2] ∧
      (main ["nodeswitch", "app2.js"] envOk
        (main ["nodeswitch", "app1.js"] envOk ring5).world).outcome = Outcome.ok ∧
      (main ["nodeswitch", "app2.js"] envOk
        (main ["nodeswitch", "app1.js"] envOk ring5).world).world.trace
        = (main ["nodeswitch", "app1.js"] envOk ring5).world.trace ++
          [Effect.interrupt 101, Effect.spawn 1 201, Effect.deliver 2 app2] ∧
      ∀ b, Effect.deliver 0 b ∉
        [Effect.interrupt 101, Effect.spawn 1 201, Effect.deliver 2 app2] :=
  ⟨by decide, by decide, by decide, by decide, fun b h => by simp at h⟩

/-- C4, amended: of two consecutive successful handoffs on the ring of five,
the earlier starts a worker at no slot other than its loaded pointer `p`, and
the later writes its code to the fifo of slot `(p + 2) mod 5` and to no other,
which is not slot `p`. -/
theorem warm_spare_two_ahead (a1 cmd1 a2 cmd2 : String) (tl1 tl2 : List String)
    (env1 env2 : Env) (w : World) (s : State) (hd : w.dirExists = true)
    (hs : w.stateFile = StateFile.holds s) (hN : s.Nodes.length = numFifos)
    (hc1 : cmd1 ≠ doneCmd) (hc2 : cmd2 ≠ doneCmd)
    (hok1 : (main (a1 :: cmd1 :: tl1) env1 w).outcome = Outcome.ok)
    (hok2 : (main (a2 :: cmd2 :: tl2) env2 (main (a1 :: cmd1 :: tl1) env1 w).world).outcome
      = Outcome.ok) :
    ∃ fx1 fx2 b2, env2.readFile cmd2 = some b2 ∧
      (main (a1 :: cmd1 :: tl1) env1 w).world.trace = w.trace ++ fx1 ∧
      (∀ fid pid, Effect.spawn fid pid ∈ fx1 → fid = s.CurrNode) ∧
      (main (a2 :: cmd2 :: tl2) env2 (main (a1 :: cmd1 :: tl1) env1 w).world).world.trace
        = (main (a1 :: cmd1 :: tl1) env1 w).world.trace ++ fx2 ∧
      (∀ fid b, Effect.deliver fid b ∈ fx2 ↔ fid = (s.CurrNode + 2) % 5 ∧ b = b2) ∧
      (s.CurrNode + 2) % 5 ≠ s.CurrNode := by
  obtain ⟨pid1, b1, pid2, b2, hi1, _, _, hr2, hw1, ht2⟩ := two_handoffs hd hs hc1 hc2 hok1 hok2
  obtain ⟨h0, hlt⟩ := index_eq_some hi1
  rw [hN] at hw1 ht2 hlt
  simp only [numFifos, Nat.cast_ofNat] at hw1 ht2 hlt
  refine ⟨interruptOf env1 pid1 ++ (spawnOf env1 s.CurrNode ++
      [Effect.deliver ((s.CurrNode + 1) % 5) b1]),
    interruptOf env2 pid2 ++ (spawnOf env2 ((s.CurrNode + 1) % 5) ++
      [Effect.deliver ((s.CurrNode + 2) % 5) b2]), b2, hr2,
    by rw [hw1]; simp only [List.append_assoc], ?_,
    by rw [ht2]; simp only [List.append_assoc], ?_, by omega⟩
  · intro fid pid hmem
    unfold interruptOf spawnOf at hmem
    cases hfp : env1.findProcess pid1 <;> cases hst : env1.start s.CurrNode <;>
      simp [hfp, hst] at hmem <;> exact hmem.1
  · intro fid b
    unfold interruptOf spawnOf
    cases hfp : env2.findProcess pid2 <;> cases hst : env2.start ((s.CurrNode + 1) % 5) <;>
      simp

/-- C4, amended, at two concrete handoffs from pointer 0: the later one writes to slot 2. -/
theorem warm_spare_two_ahead_witness :
    ∃ fx1 fx2 b2, envOk.readFile "app2.js" = some b2 ∧
      (main ["nodeswitch", "app1.js"] envOk ring5).world.trace = ring5.trace ++ fx1 ∧
      (∀ fid pid, Effect.spawn fid pid ∈ fx1 → fid = 0) ∧
      (main ["nodeswitch", "app2.js"] envOk
        (main ["nodeswitch", "app1.js"] envOk ring5).world).world.trace
        = (main ["nodeswitch", "app1.js"] envOk ring5).world.trace ++ fx2 ∧
      (∀ fid b, Effect.deliver fid b ∈ fx2 ↔ fid = (0 + 2) % 5 ∧ b = b2) ∧
      ((0 : Int) + 2) % 5 ≠ 0 :=
  warm_spare_two_ahead "nodeswitch" "app1.js" "nodeswitch" "app2.js" [] [] envOk envOk ring5
    ⟨false, 0, [100, 101, 102, 103, 104]⟩ rfl rfl rfl (by decide) (by decide) (by decide)
    (by decide)

/-- C8 (Init postcondition): for a ring of `N ≥ 2` slots, when every fifo is
made and every worker starts with a non-zero pid, `initNodes` returns a state
with exactly `N` slots, slots `0..N-2` holding the pids of the workers started
for them, slot `N-1` holding 0 with no worker started for it,
`CurrNode = N - 1` and `Running = false`; and a fifo has been made for every
slot `0..N-1`. -/
theorem init_postcondition (N : Nat) (env : Env) (w : World) (hN : 2 ≤ N)
    (hfifo : ∀ i : Nat, i < N → env.fifoRemoveFails i = false ∧ env.mkfifoFails i = false)
    (hstart : ∀ i : Nat, i + 1 < N → ∃ pid, env.start i = some pid ∧ pid ≠ 0) :
    ∃ w' st, initNodesN N env w = (w', Step.done st) ∧
      st.Nodes.length = N ∧
      (∀ i : Nat, i + 1 < N →
        ∃ pid, env.start i = some pid ∧ pid ≠ 0 ∧ st.Nodes[i]? = some pid ∧
          Effect.spawn i pid ∈ w'.trace) ∧
      st.Nodes[N - 1]? = some 0 ∧
      (∀ pid, Effect.spawn ((N : Int) - 1) pid ∈ w'.trace →
        Effect.spawn ((N : Int) - 1) pid ∈ w.trace) ∧
      st.CurrNode = (N : Int) - 1 ∧ st.Running = false ∧
      (∀ i : Nat, i < N → Effect.mkfifo i ∈ w'.trace) := by
  obtain ⟨nodes, heq, hlen, hget⟩ :=
    initLoop_spec env N (List.range N) w ⟨false, (N : Int) - 1, List.replicate N 0⟩
      (by simp) (fun i hi => ⟨List.mem_range.1 hi, hfifo i (List.mem_range.1 hi)⟩)
      (fun i _ hi => (hstart i hi).imp fun _ h => h.1)
  refine ⟨_, _, heq, hlen, ?_, ?_, ?_, rfl, rfl, ?_⟩
  · intro i hi
    obtain ⟨pid, hpid, hne⟩ := hstart i hi
    refine ⟨pid, hpid, hne, ?_, ?_⟩
    · rw [hget i, ← hpid]
      simp [hi]
      omega
    · simp only [List.mem_append, List.mem_flatMap, List.mem_range]
      exact Or.inr ⟨i, by omega, by simp [spawnOf, hpid, show i + 1 ≠ N by omega]⟩
  · rw [hget (N - 1)]
    have h1 : ¬ (N - 1 + 1 < N) := by omega
    have h2 : N - 1 < N := by omega
    simp [h1, h2]
  · intro pid hmem
    simp only [List.mem_append, List.mem_flatMap, List.mem_range] at hmem
    rcases hmem with h | ⟨i, hi, h⟩
    · exact h
    · exfalso
      by_cases hlast : i + 1 = N
      · simp [hlast] at h
      · unfold spawnOf at h
        cases hst : env.start i <;> simp [hlast, hst] at h
        omega
  · intro i hi
    simp only [List.mem_append, List.mem_flatMap, List.mem_range]
    exact Or.inr ⟨i, hi, by simp⟩

/-- C8 at `N = numFifos = 5`, every call succeeding, from a world without ring. -/
theorem init_postcondition_witness :
    initNodes envOk noRing =
        (⟨false, StateFile.absent,
            [Effect.mkfifo 0, Effect.spawn 0 200, Effect.mkfifo 1, Effect.spawn 1 201,
              Effect.mkfifo 2, Effect.spawn 2 202, Effect.mkfifo 3, Effect.spawn 3 203,
              Effect.mkfifo 4]⟩,
          Step.done ⟨false, 4, [200, 201, 202, 203, 0]⟩) ∧
      ∃ w' st, initNodes envOk noRing = (w', Step.done st) ∧
        st.Nodes.length = 5 ∧
        (∀ i : Nat, i + 1 < 5 →
          ∃ pid, envOk.start i = some pid ∧ pid ≠ 0 ∧ st.Nodes[i]? = some pid ∧
            Effect.spawn i pid ∈ w'.trace) ∧
        st.Nodes[5 - 1]? = some 0 ∧
        (∀ pid, Effect.spawn (((5 : Nat) : Int) - 1) pid ∈ w'.trace →
          Effect.spawn (((5 : Nat) : Int) - 1) pid ∈ noRing.trace) ∧
        st.CurrNode = ((5 : Nat) : Int) - 1 ∧ st.Running = false ∧
        (∀ i : Nat, i < 5 → Effect.mkfifo i ∈ w'.trace) :=
  ⟨by decide,
    init_postcondition 5 envOk noRing (by decide) (fun _ _ => ⟨rfl, rfl⟩)
      (fun i _ => ⟨200 + (i : Int), rfl, by omega⟩)⟩

/-- C9 (ring shape invariant): in every world reachable from a first run, and
after one more run of any kind from it, the persisted state has `numFifos`
slots and a pointer in `[0, numFifos)`; so has the state in memory when the
run ends; no run panics (the reads and writes of `Nodes[CurrNode]` are in
bounds and the modulus is not zero); and a successful handoff leaves every
slot other than the one at the loaded pointer as it was. -/
theorem ring_shape_invariant (w : World) (hreach : Reachable w) (args : List String)
    (env : Env) :
    w.Shaped ∧ (main args env w).world.Shaped ∧
      (∀ m, (main args env w).mem = some m → Shaped m) ∧
      (main args env w).outcome ≠ Outcome.panicked ∧
      (∀ a cmd tl s, args = a :: cmd :: tl → cmd ≠ doneCmd → w.dirExists = true →
        w.stateFile = StateFile.holds s → (main args env w).outcome = Outcome.ok →
        ∃ s', (main args env w).world.stateFile = StateFile.holds s' ∧
          s'.Nodes.length = s.Nodes.length ∧
          ∀ j : Nat, (j : Int) ≠ s.CurrNode → s'.Nodes[j]? = s.Nodes[j]?) := by
  obtain ⟨tr, invs, rfl⟩ := hreach
  have hw := runs_shape invs ⟨false, StateFile.absent, tr⟩ (world_shaped_absent _ _)
  obtain ⟨h1, h2, h3⟩ := main_shape args env _ hw
  refine ⟨hw, h1, h3, h2, ?_⟩
  intro a cmd tl s hargs hc hd hs hok
  subst hargs
  obtain ⟨s1, pid, bytes, hl, _, hi, _, heq⟩ := handoff_ok hd hc hok
  have hfile := ((loads_iff env _ s1).1 hl).2.2.2
  rw [hs] at hfile
  cases hfile
  rw [heq]
  exact ⟨_, rfl, nodesAfter_length env s,
    fun j hj => nodesAfter_getElem_ne env s j (index_eq_some hi).1 hj⟩

/-- C9 at a concrete reachable world: the world after the first run. -/
theorem ring_shape_invariant_witness :
    Reachable (runs [(["nodeswitch", "app1.js"], envOk)] noRing) ∧
      (runs [(["nodeswitch", "app1.js"], envOk)] noRing).stateFile
        = StateFile.holds ⟨false, 0, [200, 201, 202, 203, 204]⟩ ∧
      (runs [(["nodeswitch", "app1.js"], envOk)] noRing).Shaped ∧
      (main ["nodeswitch", "app2.js"] envOk
        (runs [(["nodeswitch", "app1.js"], envOk)] noRing)).world.Shaped ∧
      (main ["nodeswitch", "app2.js"] envOk
        (runs [(["nodeswitch", "app1.js"], envOk)] noRing)).outcome ≠ Outcome.panicked :=
  have hr : Reachable (runs [(["nodeswitch", "app1.js"], envOk)] noRing) := ⟨[], _, rfl⟩
  have h := ring_shape_invariant _ hr ["nodeswitch", "app2.js"] envOk
  ⟨hr, by decide, h.1, h.2.1, h.2.2.2.1⟩

/-- C10 (retirement order): of two consecutive successful handoffs on a ring
of `N ≥ 1` slots loaded with pointer `p`, the earlier ends by writing its code
to the fifo of slot `q = (p + 1) mod N`; the later requests the interrupt of
the process recorded at that same slot `q`, then starts the replacement at
`q`, and only then writes the new code, to the fifo of the next slot. -/
theorem retirement_order (a1 cmd1 a2 cmd2 : String) (tl1 tl2 : List String)
    (env1 env2 : Env) (w : World) (s : State) (N : Nat) (hd : w.dirExists = true)
    (hs : w.stateFile = StateFile.holds s) (hN : s.Nodes.length = N) (_h1 : 1 ≤ N)
    (hc1 : cmd1 ≠ doneCmd) (hc2 : cmd2 ≠ doneCmd)
    (hok1 : (main (a1 :: cmd1 :: tl1) env1 w).outcome = Outcome.ok)
    (hok2 : (main (a2 :: cmd2 :: tl2) env2 (main (a1 :: cmd1 :: tl1) env1 w).world).outcome
      = Outcome.ok) :
    ∃ s1 pid1 pid2 b1 b2,
      (main (a1 :: cmd1 :: tl1) env1 w).world.stateFile = StateFile.holds s1 ∧
      (main (a1 :: cmd1 :: tl1) env1 w).world.trace =
        w.trace ++ interruptOf env1 pid1 ++ spawnOf env1 s.CurrNode ++
          [Effect.deliver ((s.CurrNode + 1) % (N : Int)) b1] ∧
      index s1.Nodes ((s.CurrNode + 1) % (N : Int)) = some pid2 ∧
      (main (a2 :: cmd2 :: tl2) env2 (main (a1 :: cmd1 :: tl1) env1 w).world).world.trace =
        (main (a1 :: cmd1 :: tl1) env1 w).world.trace ++ interruptOf env2 pid2 ++
          spawnOf env2 ((s.CurrNode + 1) % (N : Int)) ++
          [Effect.deliver ((s.CurrNode + 2) % (N : Int)) b2] := by
  obtain ⟨pid1, b1, pid2, b2, _, hi2, _, _, hw1, ht2⟩ :=
    two_handoffs hd hs hc1 hc2 hok1 hok2
  rw [hN] at hw1 ht2 hi2
  exact ⟨_, pid1, pid2, b1, b2, by rw [hw1], by rw [hw1], hi2, ht2⟩

/-- C10 at two concrete handoffs from pointer 0 on the ring of five. -/
theorem retirement_order_witness :
    (main ["nodeswitch", "app2.js"] envOk
        (main ["nodeswitch", "app1.js"] envOk ring5).world).world.trace
        = [Effect.interrupt 100, Effect.spawn 0 200, Effect.deliver 1 app2,
            Effect.interrupt 101, Effect.spawn 1 201, Effect.deliver 2 app2] ∧
    ∃ s1 pid1 pid2 b1 b2,
      (main ["nodeswitch", "app1.js"] envOk ring5).world.stateFile = StateFile.holds s1 ∧
      (main ["nodeswitch", "app1.js"] envOk ring5).world.trace =
        ring5.trace ++ interruptOf envOk pid1 ++ spawnOf envOk 0 ++
          [Effect.deliver ((0 + 1) % ((5 : Nat) : Int)) b1] ∧
      index s1.Nodes ((0 + 1) % ((5 : Nat) : Int)) = some pid2 ∧
      (main ["nodeswitch", "app2.js"] envOk
        (main ["nodeswitch", "app1.js"] envOk ring5).world).world.trace =
        (main ["nodeswitch", "app1.js"] envOk ring5).world.trace ++ interruptOf envOk pid2 ++
          spawnOf envOk ((0 + 1) % ((5 : Nat) : Int)) ++
          [Effect.deliver ((0 + 2) % ((5 : Nat) : Int)) b2] :=
  ⟨by decide,
    retirement_order "nodeswitch" "app1.js" "nodeswitch" "app2.js" [] [] envOk envOk ring5
      ⟨false, 0, [100, 101, 102, 103, 104]⟩ 5 rfl rfl rfl (by decide) (by decide)
      (by decide) (by decide) (by decide)⟩

end Nodeswitch
